import Mathlib

/-!
Verification of the CHIP-8 emulator scaffold in `src/chip8.c` against its
natural-language specification.

The source file contains the machine-state struct `chip8_t`, the loader
`init_chip8`, the input handler `handle_input`, and `main`'s emulator loop.
These are embedded below as executable Lean definitions.  Machine bytes are
`Nat` kept below 256 by construction of the operations modelled; arrays are
`List`s of the declared lengths.  File access is abstracted: a ROM input is
`Option (List Nat)`, `none` standing for a file `fopen` cannot open, and
`some bytes` for a readable file whose contents are `bytes`.
-/

/-- Emulator states, from the C enum (`QUIT` is the first enumerator, so a
zero-initialised `chip8_t` starts in `QUIT`). -/
inductive emulator_state_t where
  | QUIT
  | RUNNING
  | PAUSED
deriving DecidableEq, Repr

/-- The CHIP8 machine object, from the C struct `chip8_t`
(src/chip8.c lines 30–42).  `ram` has 4096 bytes, `display` 64*32 cells,
`stack` holds up to 12 return addresses (the C array is `uint16_t stack[12]`;
the live entries are modelled as a list), `V` has 16 registers and `keypad`
16 key states. -/
structure chip8_t where
  state : emulator_state_t
  ram : List Nat
  display : List Bool
  stack : List Nat
  V : List Nat
  I : Nat
  PC : Nat
  delay_timer : Nat
  sound_timer : Nat
  keypad : List Bool
  rom_name : Option String
deriving DecidableEq, Repr

/-- The zero-initialised machine, from `chip8_t chip8 = {0};` in `main`
(src/chip8.c line 209): every byte zero, every flag false, state `QUIT`
(enumerator value 0). -/
def chip8_zero : chip8_t :=
  { state := .QUIT
    ram := List.replicate 4096 0
    display := List.replicate (64 * 32) false
    stack := []
    V := List.replicate 16 0
    I := 0
    PC := 0
    delay_timer := 0
    sound_timer := 0
    keypad := List.replicate 16 false
    rom_name := none }

/-- The fixed 80-byte font table from `init_chip8` (src/chip8.c lines 143–160). -/
def font : List Nat :=
  [0xF0, 0x90, 0x90, 0x90, 0xF0,
   0x20, 0x60, 0x20, 0x20, 0x70,
   0xF0, 0x10, 0xF0, 0x80, 0xF0,
   0xF0, 0x10, 0xF0, 0x10, 0xF0,
   0x90, 0x90, 0xF0, 0x10, 0x10,
   0xF0, 0x80, 0xF0, 0x10, 0xF0,
   0xF0, 0x80, 0xF0, 0x90, 0xF0,
   0xF0, 0x10, 0x20, 0x40, 0x40,
   0xF0, 0x90, 0xF0, 0x90, 0xF0,
   0xF0, 0x90, 0xF0, 0x10, 0xF0,
   0xF0, 0x90, 0xF0, 0x90, 0x90,
   0xE0, 0x90, 0xE0, 0x90, 0xE0,
   0xF0, 0x80, 0x80, 0x80, 0xF0,
   0xE0, 0x90, 0x90, 0x90, 0xE0,
   0xF0, 0x80, 0xF0, 0x80, 0xF0,
   0xF0, 0x80, 0xF0, 0x80, 0x80]

/-- `memcpy(&ram[off], bytes, bytes.length)`: overwrite the slice of `ram`
starting at `off` with `bytes`. -/
def writeBytes (ram : List Nat) (off : Nat) (bytes : List Nat) : List Nat :=
  ram.take off ++ bytes ++ ram.drop (off + bytes.length)

/-- The distinct failure conditions of `init_chip8`, one per `return false`
branch (src/chip8.c lines 167–186): `fopen` failing, the size check, and the
`fread` call not returning 1. -/
inductive LoadError where
  | unreadable
  | tooBig
  | readFail
deriving DecidableEq, Repr

/-- The loader `init_chip8` (src/chip8.c lines 141–196).  The font is copied
to `ram[0]` before the ROM file is opened; then `fopen` (here: `rom = none`
means unopenable), the size check `rom_size > sizeof ram - 0x200`, and
`fread(&ram[0x200], rom_size, 1, rom)`.  A single-member `fread` of
`rom_size` bytes from a readable file of exactly `rom_size` bytes returns 1
when `rom_size ≥ 1` and returns 0 when `rom_size = 0` (C11 7.21.8.1: if
size is zero, `fread` returns zero and the array contents are unchanged).
On success, `state ← RUNNING`, `PC ← 0x200`, `rom_name` is recorded. -/
def init_chip8 (c : chip8_t) (rom : Option (List Nat)) (rom_name : String) :
    Option LoadError × chip8_t :=
  let c1 := { c with ram := writeBytes c.ram 0 font }
  match rom with
  | none => (some .unreadable, c1)
  | some bytes =>
    if bytes.length > 4096 - 0x200 then
      (some .tooBig, c1)
    else if bytes.length = 0 then
      (some .readFail, c1)
    else
      (none,
       { c1 with
          ram := writeBytes c1.ram 0x200 bytes
          state := .RUNNING
          PC := 0x200
          rom_name := some rom_name })

/-- The SDL events `handle_input` discriminates on: `SDL_QUIT`, `SDL_KEYUP`,
`SDL_KEYDOWN` with a key symbol, and any other event type. -/
inductive KeySym where
  | escape
  | space
  | otherKey
deriving DecidableEq, Repr

inductive SDLEvent where
  | sdl_quit
  | keyup (sym : KeySym)
  | keydown (sym : KeySym)
  | otherEvent
deriving DecidableEq, Repr

/-- The input handler `handle_input` (src/chip8.c lines 104–139): drain the
event queue; `SDL_QUIT` sets state to `QUIT` and returns at once, `ESCAPE`
keydown likewise; `SPACE` keydown toggles `RUNNING` to `PAUSED` and any other
state to `RUNNING`; key-up events and all other events are ignored. -/
def handle_input (c : chip8_t) : List SDLEvent → chip8_t
  | [] => c
  | e :: rest =>
    match e with
    | .sdl_quit => { c with state := .QUIT }
    | .keyup _ => handle_input c rest
    | .keydown .escape => { c with state := .QUIT }
    | .keydown .space =>
        if c.state = .RUNNING then
          handle_input { c with state := .PAUSED } rest
        else
          handle_input { c with state := .RUNNING } rest
    | .keydown .otherKey => handle_input c rest
    | .otherEvent => handle_input c rest

/-- One iteration of `main`'s emulator loop body (src/chip8.c lines 218–226):
`handle_input`, `SDL_Delay(16)`, `update_screen`.  Only `handle_input`
touches the `chip8` object; the delay and the render read nothing from it. -/
def tick (c : chip8_t) (evs : List SDLEvent) : chip8_t :=
  handle_input c evs

/-- `main`'s emulator loop (src/chip8.c lines 218–226):
`while (chip8.state != QUIT) { tick }`, observed along a finite schedule of
per-iteration event batches; the state is tested before each tick. -/
def main_loop (c : chip8_t) : List (List SDLEvent) → chip8_t
  | [] => c
  | evs :: rest =>
    if c.state = .QUIT then c else main_loop (tick c evs) rest

/-- The memory addresses written by a full `init_chip8` run
(src/chip8.c lines 163 and 183): `memcpy(&chip8->ram[0], font, 80)` writes
addresses `0..79`, and `fread(&chip8->ram[0x200], rom_size, 1, rom)` writes
addresses `0x200..0x200+rom_size-1`. -/
def loadWriteAddrs (romLen : Nat) : List Nat :=
  List.range 80 ++ (List.range romLen).map (fun i => 0x200 + i)

/-- Per-instruction faults of the call/return opcodes. -/
inductive Fault where
  | stackOverflow
  | stackUnderflow
deriving DecidableEq, Repr

/-- Modelled from the spec: the repository's src contains no instruction
executor — `chip8_t` declares `uint16_t stack[12]` (src/chip8.c line 34) but
no code pushes or pops it.  Opcode `2NNN` per spec §4.2: push the return
address `PC + 2` onto the stack (fails with stack-overflow when the stack
already holds 12 entries, per §3), then `PC ← NNN`. -/
def exec_call (c : chip8_t) (nnn : Nat) : Except Fault chip8_t :=
  if 12 ≤ c.stack.length then .error .stackOverflow
  else .ok { c with stack := (c.PC + 2) :: c.stack, PC := nnn }

/-- Modelled from the spec: the repository's src contains no instruction
executor.  Opcode `00EE` per spec §4.2: pop the stack into `PC` (fails with
stack-underflow when the stack is empty). -/
def exec_ret (c : chip8_t) : Except Fault chip8_t :=
  match c.stack with
  | [] => .error .stackUnderflow
  | a :: rest => .ok { c with PC := a, stack := rest }

/-- Run a sequence of `2NNN` calls, stopping at the first fault. -/
def exec_calls (c : chip8_t) : List Nat → Except Fault chip8_t
  | [] => .ok c
  | a :: rest =>
    match exec_call c a with
    | .ok c1 => exec_calls c1 rest
    | .error f => .error f

/-! ## Helper lemmas -/

theorem chip8_zero_ram_length : chip8_zero.ram.length = 4096 := by
  show (List.replicate 4096 0).length = 4096
  exact List.length_replicate 4096 0

theorem chip8_ext (a b : chip8_t)
    (h1 : a.state = b.state) (h2 : a.ram = b.ram) (h3 : a.display = b.display)
    (h4 : a.stack = b.stack) (h5 : a.V = b.V) (h6 : a.I = b.I) (h7 : a.PC = b.PC)
    (h8 : a.delay_timer = b.delay_timer) (h9 : a.sound_timer = b.sound_timer)
    (h10 : a.keypad = b.keypad) (h11 : a.rom_name = b.rom_name) : a = b := by
  cases a
  cases b
  simp_all

theorem length_writeBytes (ram : List Nat) (off : Nat) (bytes : List Nat)
    (h : off + bytes.length ≤ ram.length) :
    (writeBytes ram off bytes).length = ram.length := by
  simp only [writeBytes, List.length_append, List.length_take, List.length_drop]
  omega

theorem take_writeBytes_of_le (ram : List Nat) (off : Nat) (bytes : List Nat)
    (k : Nat) (hk : k ≤ off) (hoff : off ≤ ram.length) :
    (writeBytes ram off bytes).take k = ram.take k := by
  have hlen : k ≤ (ram.take off).length := by
    simp only [List.length_take]
    omega
  simp only [writeBytes, List.append_assoc]
  rw [List.take_append_of_le_length hlen, List.take_take]
  congr 1
  omega

theorem segment_writeBytes (ram : List Nat) (off : Nat) (bytes : List Nat)
    (hoff : off ≤ ram.length) :
    ((writeBytes ram off bytes).drop off).take bytes.length = bytes := by
  have hlen : (ram.take off).length = off := by
    simp only [List.length_take]
    omega
  simp only [writeBytes, List.append_assoc]
  generalize hp : ram.take off = p
  rw [hp] at hlen
  rw [← hlen, List.drop_left]
  exact List.take_left bytes _

/-- The input handler leaves every field of the machine except `state`
untouched. -/
theorem handle_input_frame (evs : List SDLEvent) (c : chip8_t) :
    (handle_input c evs).ram = c.ram ∧ (handle_input c evs).display = c.display ∧
    (handle_input c evs).stack = c.stack ∧ (handle_input c evs).V = c.V ∧
    (handle_input c evs).I = c.I ∧ (handle_input c evs).PC = c.PC ∧
    (handle_input c evs).delay_timer = c.delay_timer ∧
    (handle_input c evs).sound_timer = c.sound_timer ∧
    (handle_input c evs).keypad = c.keypad ∧
    (handle_input c evs).rom_name = c.rom_name := by
  induction evs generalizing c with
  | nil => simp [handle_input]
  | cons e rest ih =>
    cases e with
    | sdl_quit => simp [handle_input]
    | keyup s => simpa [handle_input] using ih c
    | keydown s =>
      cases s with
      | escape => simp [handle_input]
      | space =>
        simp only [handle_input]
        split
        · simpa using ih { c with state := .PAUSED }
        · simpa using ih { c with state := .RUNNING }
      | otherKey => simpa [handle_input] using ih c
    | otherEvent => simpa [handle_input] using ih c

/-- The emulator loop leaves every field of the machine except `state`
untouched: its body only calls `handle_input` on the machine object. -/
theorem main_loop_frame (sched : List (List SDLEvent)) (c : chip8_t) :
    (main_loop c sched).ram = c.ram ∧ (main_loop c sched).display = c.display ∧
    (main_loop c sched).stack = c.stack ∧ (main_loop c sched).V = c.V ∧
    (main_loop c sched).I = c.I ∧ (main_loop c sched).PC = c.PC ∧
    (main_loop c sched).delay_timer = c.delay_timer ∧
    (main_loop c sched).sound_timer = c.sound_timer ∧
    (main_loop c sched).keypad = c.keypad ∧
    (main_loop c sched).rom_name = c.rom_name := by
  induction sched generalizing c with
  | nil => simp [main_loop]
  | cons evs rest ih =>
    simp only [main_loop]
    split
    · simp
    · have h1 := ih (tick c evs)
      have h2 := handle_input_frame evs c
      simp only [tick] at h1
      obtain ⟨a1, a2, a3, a4, a5, a6, a7, a8, a9, a10⟩ := h1
      obtain ⟨b1, b2, b3, b4, b5, b6, b7, b8, b9, b10⟩ := h2
      exact ⟨a1.trans b1, a2.trans b2, a3.trans b3, a4.trans b4, a5.trans b5,
             a6.trans b6, a7.trans b7, a8.trans b8, a9.trans b9, a10.trans b10⟩

/-- Every failing branch of `init_chip8` returns the machine with only the
font `memcpy` applied (the copy at src/chip8.c line 163 happens before any
validation). -/
theorem init_chip8_failure (c : chip8_t) (rom : Option (List Nat)) (n : String)
    (h : (init_chip8 c rom n).1 ≠ none) :
    (init_chip8 c rom n).2 = { c with ram := writeBytes c.ram 0 font } := by
  cases rom with
  | none => rfl
  | some bytes =>
    by_cases h1 : bytes.length > 4096 - 0x200
    · simp [init_chip8, h1]
    · by_cases h2 : bytes.length = 0
      · simp [init_chip8, h1, h2]
      · exact absurd (by simp [init_chip8, h1, h2]) h

/-- `init_chip8` succeeds on a readable ROM exactly when its size is between
1 and 3584 bytes. -/
theorem init_chip8_ok_iff (c : chip8_t) (bytes : List Nat) (n : String) :
    (init_chip8 c (some bytes) n).1 = none ↔
      1 ≤ bytes.length ∧ bytes.length ≤ 3584 := by
  by_cases h1 : bytes.length > 4096 - 0x200
  · simp only [init_chip8]
    rw [if_pos h1]
    simp
    omega
  · by_cases h2 : bytes.length = 0
    · simp only [init_chip8]
      rw [if_neg h1, if_pos h2]
      simp
      omega
    · simp only [init_chip8]
      rw [if_neg h1, if_neg h2]
      simp
      omega

/-- On success, the machine `init_chip8` returns: font then ROM written into
ram, `state = RUNNING`, `PC = 0x200`, all other fields untouched. -/
theorem init_chip8_success (c : chip8_t) (bytes : List Nat) (n : String)
    (h1 : ¬ bytes.length > 4096 - 0x200) (h2 : ¬ bytes.length = 0) :
    init_chip8 c (some bytes) n =
      (none,
       { c with
          ram := writeBytes (writeBytes c.ram 0 font) 0x200 bytes
          state := .RUNNING
          PC := 0x200
          rom_name := some n }) := by
  simp only [init_chip8]
  rw [if_neg h1, if_neg h2]

/-! ## Claims -/

/-- C1, counterexample: the empty ROM is readable and its size 0 is at most
3584 bytes, yet `init_chip8` does not succeed — the single-member `fread` of
zero bytes returns 0, not 1, so the load fails in the read branch.  This
refutes the claim that load succeeds for every readable ROM of size at most
3584 bytes. -/
theorem C1_counterexample :
    ([] : List Nat).length ≤ 4096 - 0x200 ∧
    (init_chip8 chip8_zero (some []) "rom").1 = some LoadError.readFail := by
  exact ⟨by decide, rfl⟩

/-- C1 (amended): for every readable ROM whose size is at least 1 and at most
3584 bytes, load succeeds and afterwards memory[0x000:0x050) holds the
80-byte font table, memory[0x200:0x200+len) holds the ROM bytes, PC = 0x200
and state = RUNNING; among readable ROMs, load fails with the size-exceeded
condition exactly when the ROM is larger than 3584 bytes; and load fails with
the unreadable-source condition when the input cannot be obtained.  (A
readable ROM of size 0 instead fails in the `fread` branch.) -/
theorem C1_load_contract (c : chip8_t) (bytes : List Nat) (n : String)
    (hram : c.ram.length = 4096)
    (hlo : 1 ≤ bytes.length) (hhi : bytes.length ≤ 3584) :
    (init_chip8 c (some bytes) n).1 = none ∧
    (init_chip8 c (some bytes) n).2.ram.take 80 = font ∧
    ((init_chip8 c (some bytes) n).2.ram.drop 0x200).take bytes.length = bytes ∧
    (init_chip8 c (some bytes) n).2.PC = 0x200 ∧
    (init_chip8 c (some bytes) n).2.state = .RUNNING ∧
    (∀ bs : List Nat,
      (init_chip8 c (some bs) n).1 = some LoadError.tooBig ↔ 3584 < bs.length) ∧
    (init_chip8 c none n).1 = some LoadError.unreadable := by
  have h1 : ¬ bytes.length > 4096 - 0x200 := by omega
  have h2 : ¬ bytes.length = 0 := by omega
  have hsucc := init_chip8_success c bytes n h1 h2
  have hfontlen : (font : List Nat).length = 80 := by decide
  have hinner : (writeBytes c.ram 0 font).length = 4096 := by
    rw [length_writeBytes]
    · exact hram
    · rw [hfontlen, hram]
      omega
  refine ⟨by rw [hsucc], ?_, ?_, by rw [hsucc], by rw [hsucc], ?_, rfl⟩
  · rw [hsucc]
    show (writeBytes (writeBytes c.ram 0 font) 0x200 bytes).take 80 = font
    rw [take_writeBytes_of_le _ _ _ 80 (by omega) (by omega)]
    show (List.take 0 c.ram ++ font ++
      List.drop (0 + font.length) c.ram).take 80 = font
    simp only [List.take_zero, List.nil_append, List.append_assoc]
    rw [← hfontlen]
    exact List.take_left font _
  · rw [hsucc]
    show ((writeBytes (writeBytes c.ram 0 font) 0x200 bytes).drop 0x200).take
      bytes.length = bytes
    exact segment_writeBytes _ _ _ (by omega)
  · intro bs
    by_cases hb1 : bs.length > 4096 - 0x200
    · simp only [init_chip8]
      rw [if_pos hb1]
      simp only [true_iff]
      omega
    · by_cases hb2 : bs.length = 0
      · simp only [init_chip8]
        rw [if_neg hb1, if_pos hb2]
        simp only [Option.some.injEq, iff_false]
        constructor
        · intro hc
          exact LoadError.noConfusion hc
        · omega
      · simp only [init_chip8]
        rw [if_neg hb1, if_neg hb2]
        constructor
        · intro hc
          exact Option.noConfusion hc
        · omega

/-- C1, witness: the amended contract applied to the zero machine and the
two-byte ROM [0x12, 0x34]. -/
theorem C1_load_contract_witness :
    chip8_zero.ram.length = 4096 ∧ 1 ≤ ([0x12, 0x34] : List Nat).length ∧
    ([0x12, 0x34] : List Nat).length ≤ 3584 ∧
    ((init_chip8 chip8_zero (some [0x12, 0x34]) "rom").1 = none ∧
     (init_chip8 chip8_zero (some [0x12, 0x34]) "rom").2.ram.take 80 = font ∧
     ((init_chip8 chip8_zero (some [0x12, 0x34]) "rom").2.ram.drop 0x200).take
        ([0x12, 0x34] : List Nat).length = [0x12, 0x34] ∧
     (init_chip8 chip8_zero (some [0x12, 0x34]) "rom").2.PC = 0x200 ∧
     (init_chip8 chip8_zero (some [0x12, 0x34]) "rom").2.state = .RUNNING ∧
     (∀ bs : List Nat,
       (init_chip8 chip8_zero (some bs) "rom").1 = some LoadError.tooBig ↔
         3584 < bs.length) ∧
     (init_chip8 chip8_zero none "rom").1 = some LoadError.unreadable) :=
  ⟨chip8_zero_ram_length, by decide, by decide,
   C1_load_contract chip8_zero [0x12, 0x34] "rom" chip8_zero_ram_length
     (by decide) (by decide)⟩

/-- C3, counterexample: on an unreadable ROM, `init_chip8` fails, yet memory
has been written — the font `memcpy` at src/chip8.c line 163 runs before the
file is opened, so `ram[0]` changes from 0 to 0xF0.  This refutes the claim
that on load failure no memory byte has been written. -/
theorem C3_counterexample :
    (init_chip8 chip8_zero none "rom").1 = some LoadError.unreadable ∧
    (init_chip8 chip8_zero none "rom").2.ram.take 1 = [0xF0] ∧
    chip8_zero.ram.take 1 = [0] := by
  exact ⟨rfl, rfl, rfl⟩

/-- C3 (amended): load errors are fatal to startup and reported to the
caller, and no partial machine is started: whenever load returns failure,
`state`, `PC`, registers, `I`, stack, timers, display, keypad and `rom_name`
are all unchanged from before the call, and memory is unchanged except that
the 80-byte font table has already been copied to addresses 0x000–0x04F
(that copy precedes all validation in `init_chip8`). -/
theorem C3_failure_no_partial_machine (c : chip8_t) (rom : Option (List Nat))
    (n : String) (h : (init_chip8 c rom n).1 ≠ none) :
    (init_chip8 c rom n).2.state = c.state ∧
    (init_chip8 c rom n).2.PC = c.PC ∧
    (init_chip8 c rom n).2.V = c.V ∧
    (init_chip8 c rom n).2.I = c.I ∧
    (init_chip8 c rom n).2.stack = c.stack ∧
    (init_chip8 c rom n).2.delay_timer = c.delay_timer ∧
    (init_chip8 c rom n).2.sound_timer = c.sound_timer ∧
    (init_chip8 c rom n).2.display = c.display ∧
    (init_chip8 c rom n).2.keypad = c.keypad ∧
    (init_chip8 c rom n).2.rom_name = c.rom_name ∧
    (init_chip8 c rom n).2.ram = writeBytes c.ram 0 font := by
  rw [init_chip8_failure c rom n h]
  exact ⟨rfl, rfl, rfl, rfl, rfl, rfl, rfl, rfl, rfl, rfl, rfl⟩

/-- C3, witness: the amended statement applied to the zero machine and an
unreadable ROM. -/
theorem C3_failure_no_partial_machine_witness :
    (init_chip8 chip8_zero none "rom").1 ≠ none ∧
    ((init_chip8 chip8_zero none "rom").2.state = chip8_zero.state ∧
     (init_chip8 chip8_zero none "rom").2.PC = chip8_zero.PC ∧
     (init_chip8 chip8_zero none "rom").2.V = chip8_zero.V ∧
     (init_chip8 chip8_zero none "rom").2.I = chip8_zero.I ∧
     (init_chip8 chip8_zero none "rom").2.stack = chip8_zero.stack ∧
     (init_chip8 chip8_zero none "rom").2.delay_timer = chip8_zero.delay_timer ∧
     (init_chip8 chip8_zero none "rom").2.sound_timer = chip8_zero.sound_timer ∧
     (init_chip8 chip8_zero none "rom").2.display = chip8_zero.display ∧
     (init_chip8 chip8_zero none "rom").2.keypad = chip8_zero.keypad ∧
     (init_chip8 chip8_zero none "rom").2.rom_name = chip8_zero.rom_name ∧
     (init_chip8 chip8_zero none "rom").2.ram = writeBytes chip8_zero.ram 0 font) :=
  have h : (init_chip8 chip8_zero none "rom").1 ≠ none := by
    intro hc
    exact Option.noConfusion hc
  ⟨h, C3_failure_no_partial_machine chip8_zero none "rom" h⟩

/-- C10: a readable ROM file of 0 bytes is within the size bound yet fails to
load: `fread(&ram[0x200], 0, 1, rom)` returns 0, not 1, so `init_chip8`
takes the could-not-read failure branch (the spec's unreadable-source
condition); the machine is not started — `state` and `PC` are unchanged and
`state` is not set to RUNNING by the call. -/
theorem C10_zero_size_rom_fails (c : chip8_t) (n : String) :
    ([] : List Nat).length ≤ 4096 - 0x200 ∧
    (init_chip8 c (some []) n).1 = some LoadError.readFail ∧
    (init_chip8 c (some []) n).2.state = c.state ∧
    (init_chip8 c (some []) n).2.PC = c.PC := by
  refine ⟨by decide, ?_, ?_, ?_⟩ <;> simp [init_chip8]

/-- C2: memory safety of load-then-run.  Every memory address written by
`init_chip8` (the font `memcpy` and the ROM `fread`) is below 4096 whenever
the ROM is at most 3584 bytes, and the emulator loop body never writes
memory at all: one tick leaves `ram` unchanged, and so does any number of
loop iterations. -/
theorem C2_no_out_of_bounds_writes (romLen : Nat) (h : romLen ≤ 3584) :
    (∀ a ∈ loadWriteAddrs romLen, a < 4096) ∧
    (∀ (c : chip8_t) (evs : List SDLEvent), (tick c evs).ram = c.ram) ∧
    (∀ (c : chip8_t) (sched : List (List SDLEvent)),
      (main_loop c sched).ram = c.ram) := by
  refine ⟨?_, ?_, ?_⟩
  · intro a ha
    simp only [loadWriteAddrs, List.mem_append, List.mem_range, List.mem_map] at ha
    rcases ha with ha | ⟨i, hi, rfl⟩
    · omega
    · omega
  · intro c evs
    exact (handle_input_frame evs c).1
  · intro c sched
    exact (main_loop_frame sched c).1

/-- C2, witness: the bound applied at ROM length 3584. -/
theorem C2_no_out_of_bounds_writes_witness :
    3584 ≤ 3584 ∧
    ((∀ a ∈ loadWriteAddrs 3584, a < 4096) ∧
     (∀ (c : chip8_t) (evs : List SDLEvent), (tick c evs).ram = c.ram) ∧
     (∀ (c : chip8_t) (sched : List (List SDLEvent)),
       (main_loop c sched).ram = c.ram)) :=
  ⟨by decide, C2_no_out_of_bounds_writes 3584 (by decide)⟩

/-- C4: the code diverges from the claim.  The emulator loop body
(src/chip8.c lines 218–226) contains no timer update — it only handles
input, delays and redraws — even though the struct fields are documented as
"Decrements at 60hz when > 0" (src/chip8.c lines 38–39).  Starting RUNNING
with delay_timer = 5, one tick leaves delay_timer at 5 (the claim says 4),
and after 5 ticks it is still 5, not 0. -/
theorem C4_tick_never_decrements_timers :
    (tick { chip8_zero with state := .RUNNING, delay_timer := 5 } []).delay_timer
      = 5 ∧
    (main_loop { chip8_zero with state := .RUNNING, delay_timer := 5 }
      [[], [], [], [], []]).delay_timer = 5 ∧
    (∀ (c : chip8_t) (evs : List SDLEvent),
      (tick c evs).delay_timer = c.delay_timer ∧
      (tick c evs).sound_timer = c.sound_timer) := by
  refine ⟨rfl, rfl, ?_⟩
  intro c evs
  exact ⟨(handle_input_frame evs c).2.2.2.2.2.2.1,
         (handle_input_frame evs c).2.2.2.2.2.2.2.1⟩

/-- C5: a tick taken while PAUSED changes no register, no memory byte, no
timer, no display cell, no stack entry and no keypad entry; with no incoming
events the PAUSED state persists; and pressing space resumes to RUNNING with
the program counter exactly where it was. -/
theorem C5_paused_tick_is_identity (c : chip8_t) (evs : List SDLEvent)
    (h : c.state = .PAUSED) :
    (tick c evs).ram = c.ram ∧ (tick c evs).display = c.display ∧
    (tick c evs).stack = c.stack ∧ (tick c evs).V = c.V ∧
    (tick c evs).I = c.I ∧ (tick c evs).PC = c.PC ∧
    (tick c evs).delay_timer = c.delay_timer ∧
    (tick c evs).sound_timer = c.sound_timer ∧
    (tick c evs).keypad = c.keypad ∧
    (tick c []).state = .PAUSED ∧
    (tick c [SDLEvent.keydown .space]).state = .RUNNING ∧
    (tick c [SDLEvent.keydown .space]).PC = c.PC := by
  obtain ⟨f1, f2, f3, f4, f5, f6, f7, f8, f9, _⟩ := handle_input_frame evs c
  have hspace : tick c [SDLEvent.keydown .space] =
      { c with state := .RUNNING } := by
    simp [tick, handle_input, h]
  exact ⟨f1, f2, f3, f4, f5, f6, f7, f8, f9, h, by rw [hspace], by rw [hspace]⟩

/-- C5, witness: the paused-tick frame applied to the zero machine set to
PAUSED, with one ignored event in the queue. -/
theorem C5_paused_tick_is_identity_witness :
    ({ chip8_zero with state := .PAUSED } : chip8_t).state = .PAUSED ∧
    (let c : chip8_t := { chip8_zero with state := .PAUSED }
     let evs : List SDLEvent := [SDLEvent.otherEvent]
     (tick c evs).ram = c.ram ∧ (tick c evs).display = c.display ∧
     (tick c evs).stack = c.stack ∧ (tick c evs).V = c.V ∧
     (tick c evs).I = c.I ∧ (tick c evs).PC = c.PC ∧
     (tick c evs).delay_timer = c.delay_timer ∧
     (tick c evs).sound_timer = c.sound_timer ∧
     (tick c evs).keypad = c.keypad ∧
     (tick c []).state = .PAUSED ∧
     (tick c [SDLEvent.keydown .space]).state = .RUNNING ∧
     (tick c [SDLEvent.keydown .space]).PC = c.PC) :=
  ⟨rfl, C5_paused_tick_is_identity { chip8_zero with state := .PAUSED }
     [SDLEvent.otherEvent] rfl⟩

/-- C6: QUIT is terminal.  The loop condition `while (chip8.state != QUIT)`
is tested before every iteration, so once the state is QUIT the loop runs no
further tick: the machine is returned exactly as it is, with no mutation of
memory, registers, timers or display, and the state never leaves QUIT. -/
theorem C6_quit_is_terminal (c : chip8_t) (sched : List (List SDLEvent))
    (h : c.state = .QUIT) :
    main_loop c sched = c := by
  cases sched with
  | nil => rfl
  | cons evs rest => simp [main_loop, h]

/-- C6, witness: the zero machine starts in QUIT (enumerator 0), and the loop
returns it untouched even with pending events. -/
theorem C6_quit_is_terminal_witness :
    chip8_zero.state = .QUIT ∧
    main_loop chip8_zero [[SDLEvent.keydown .space], []] = chip8_zero :=
  ⟨rfl, C6_quit_is_terminal chip8_zero [[SDLEvent.keydown .space], []] rfl⟩

theorem init_chip8_keypad (c : chip8_t) (rom : Option (List Nat)) (n : String) :
    (init_chip8 c rom n).2.keypad = c.keypad := by
  cases rom with
  | none => rfl
  | some bytes =>
    by_cases h1 : bytes.length > 4096 - 0x200
    · simp [init_chip8, h1]
    · by_cases h2 : bytes.length = 0
      · simp [init_chip8, h1, h2]
      · simp [init_chip8, h1, h2]

theorem exec_calls_ok (addrs : List Nat) (c : chip8_t)
    (h : c.stack.length + addrs.length ≤ 12) :
    ∃ c1, exec_calls c addrs = .ok c1 ∧
      c1.stack.length = c.stack.length + addrs.length := by
  induction addrs generalizing c with
  | nil => exact ⟨c, rfl, by simp⟩
  | cons a rest ih =>
    have hlt : ¬ 12 ≤ c.stack.length := by
      simp only [List.length_cons] at h
      omega
    obtain ⟨c1, hc1, hlen⟩ :=
      ih { c with stack := (c.PC + 2) :: c.stack, PC := a }
        (by
          show ((c.PC + 2) :: c.stack).length + rest.length ≤ 12
          simp only [List.length_cons] at h ⊢
          omega)
    refine ⟨c1, ?_, ?_⟩
    · simp only [exec_calls, exec_call]
      rw [if_neg hlt]
      exact hc1
    · rw [hlen]
      show ((c.PC + 2) :: c.stack).length + rest.length =
        c.stack.length + (a :: rest).length
      simp only [List.length_cons]
      omega

theorem exec_calls_overflow (addrs : List Nat) (c : chip8_t)
    (hle : c.stack.length ≤ 12) (h : c.stack.length + addrs.length = 13) :
    exec_calls c addrs = .error Fault.stackOverflow := by
  induction addrs generalizing c with
  | nil =>
    simp only [List.length_nil] at h
    omega
  | cons a rest ih =>
    by_cases hfull : 12 ≤ c.stack.length
    · simp only [exec_calls, exec_call]
      rw [if_pos hfull]
    · simp only [exec_calls, exec_call]
      rw [if_neg hfull]
      refine ih { c with stack := (c.PC + 2) :: c.stack, PC := a } ?_ ?_
      · show ((c.PC + 2) :: c.stack).length ≤ 12
        simp only [List.length_cons]
        omega
      · show ((c.PC + 2) :: c.stack).length + rest.length = 13
        simp only [List.length_cons] at h ⊢
        omega

/-- C7: stack discipline of `2NNN`/`00EE` (spec-modelled executor; the
repository's src declares the 12-entry stack but contains no executor).
From an empty stack: every sequence of 12 calls succeeds; every sequence of
13 calls fails with stack-overflow; `00EE` fails with stack-underflow; and a
call to NNN followed by a return lands PC on the instruction after the
original call (PC + 2) with the stack restored. -/
theorem C7_stack_discipline (c : chip8_t) (h : c.stack = []) :
    (∀ addrs : List Nat, addrs.length = 12 →
      ∃ c1, exec_calls c addrs = .ok c1) ∧
    (∀ addrs : List Nat, addrs.length = 13 →
      exec_calls c addrs = .error Fault.stackOverflow) ∧
    exec_ret c = .error Fault.stackUnderflow ∧
    (∀ nnn : Nat, ∃ c1, exec_call c nnn = .ok c1 ∧ c1.PC = nnn ∧
      ∃ c2, exec_ret c1 = .ok c2 ∧ c2.PC = c.PC + 2 ∧ c2.stack = []) := by
  refine ⟨?_, ?_, ?_, ?_⟩
  · intro addrs hlen
    obtain ⟨c1, hc1, _⟩ := exec_calls_ok addrs c (by simp [h, hlen])
    exact ⟨c1, hc1⟩
  · intro addrs hlen
    exact exec_calls_overflow addrs c (by simp [h]) (by simp [h, hlen])
  · simp [exec_ret, h]
  · intro nnn
    refine ⟨{ c with stack := [c.PC + 2], PC := nnn }, ?_, rfl,
            { c with stack := [], PC := c.PC + 2 }, ?_, rfl, rfl⟩
    · simp [exec_call, h]
    · rfl

/-- C7, witness: the discipline applied to the zero machine, whose stack is
empty. -/
theorem C7_stack_discipline_witness :
    chip8_zero.stack = [] ∧
    ((∀ addrs : List Nat, addrs.length = 12 →
       ∃ c1, exec_calls chip8_zero addrs = .ok c1) ∧
     (∀ addrs : List Nat, addrs.length = 13 →
       exec_calls chip8_zero addrs = .error Fault.stackOverflow) ∧
     exec_ret chip8_zero = .error Fault.stackUnderflow ∧
     (∀ nnn : Nat, ∃ c1, exec_call chip8_zero nnn = .ok c1 ∧ c1.PC = nnn ∧
       ∃ c2, exec_ret c1 = .ok c2 ∧ c2.PC = chip8_zero.PC + 2 ∧
         c2.stack = [])) :=
  ⟨rfl, C7_stack_discipline chip8_zero rfl⟩

theorem chip8_zero_display_length : chip8_zero.display.length = 64 * 32 := by
  show (List.replicate (64 * 32) false).length = 64 * 32
  exact List.length_replicate (64 * 32) false

/-- C8: every operation of the program preserves the machine-state bounds.
After a successful load and any number of emulator-loop iterations: memory
is exactly 4096 bytes, the display exactly 64×32 cells, there are exactly 16
registers, the stack depth never exceeds 12, and the program counter is an
even address at the start of the loaded program region (0x200 ≤ PC <
0x200 + rom length) — the position of the next fetch. -/
theorem C8_machine_bounds_invariant (c : chip8_t) (bytes : List Nat)
    (n : String) (sched : List (List SDLEvent))
    (hram : c.ram.length = 4096) (hdisp : c.display.length = 64 * 32)
    (hV : c.V.length = 16) (hstack : c.stack.length ≤ 12)
    (hkey : c.keypad.length = 16)
    (hok : (init_chip8 c (some bytes) n).1 = none) :
    (main_loop (init_chip8 c (some bytes) n).2 sched).ram.length = 4096 ∧
    (main_loop (init_chip8 c (some bytes) n).2 sched).display.length = 64 * 32 ∧
    (main_loop (init_chip8 c (some bytes) n).2 sched).V.length = 16 ∧
    (main_loop (init_chip8 c (some bytes) n).2 sched).stack.length ≤ 12 ∧
    (main_loop (init_chip8 c (some bytes) n).2 sched).keypad.length = 16 ∧
    (main_loop (init_chip8 c (some bytes) n).2 sched).PC % 2 = 0 ∧
    0x200 ≤ (main_loop (init_chip8 c (some bytes) n).2 sched).PC ∧
    (main_loop (init_chip8 c (some bytes) n).2 sched).PC <
      0x200 + bytes.length := by
  have hlen := (init_chip8_ok_iff c bytes n).mp hok
  have h1 : ¬ bytes.length > 4096 - 0x200 := by omega
  have h2 : ¬ bytes.length = 0 := by omega
  have hsucc := init_chip8_success c bytes n h1 h2
  have hfontlen : (font : List Nat).length = 80 := by decide
  have hinner : (writeBytes c.ram 0 font).length = 4096 := by
    rw [length_writeBytes]
    · exact hram
    · omega
  have houter : (writeBytes (writeBytes c.ram 0 font) 0x200 bytes).length
      = 4096 := by
    rw [length_writeBytes]
    · exact hinner
    · omega
  obtain ⟨m1, m2, m3, m4, m5, m6, m7, m8, m9, m10⟩ :=
    main_loop_frame sched (init_chip8 c (some bytes) n).2
  refine ⟨?_, ?_, ?_, ?_, ?_, ?_, ?_, ?_⟩
  · rw [m1, hsucc]
    exact houter
  · rw [m2, hsucc]
    exact hdisp
  · rw [m4, hsucc]
    exact hV
  · rw [m3, hsucc]
    exact hstack
  · rw [m9, hsucc]
    exact hkey
  · rw [m6, hsucc]
    show (0x200 : Nat) % 2 = 0
    decide
  · rw [m6, hsucc]
  · rw [m6, hsucc]
    show (0x200 : Nat) < 0x200 + bytes.length
    omega

/-- C8, witness: the invariant after loading the one-byte ROM [0] into the
zero machine and running the loop on an empty schedule. -/
theorem C8_machine_bounds_invariant_witness :
    chip8_zero.ram.length = 4096 ∧ chip8_zero.display.length = 64 * 32 ∧
    chip8_zero.V.length = 16 ∧ chip8_zero.stack.length ≤ 12 ∧
    chip8_zero.keypad.length = 16 ∧
    (init_chip8 chip8_zero (some [0]) "rom").1 = none ∧
    ((main_loop (init_chip8 chip8_zero (some [0]) "rom").2 []).ram.length = 4096 ∧
     (main_loop (init_chip8 chip8_zero (some [0]) "rom").2 []).display.length
       = 64 * 32 ∧
     (main_loop (init_chip8 chip8_zero (some [0]) "rom").2 []).V.length = 16 ∧
     (main_loop (init_chip8 chip8_zero (some [0]) "rom").2 []).stack.length
       ≤ 12 ∧
     (main_loop (init_chip8 chip8_zero (some [0]) "rom").2 []).keypad.length
       = 16 ∧
     (main_loop (init_chip8 chip8_zero (some [0]) "rom").2 []).PC % 2 = 0 ∧
     0x200 ≤ (main_loop (init_chip8 chip8_zero (some [0]) "rom").2 []).PC ∧
     (main_loop (init_chip8 chip8_zero (some [0]) "rom").2 []).PC <
       0x200 + ([0] : List Nat).length) :=
  ⟨chip8_zero_ram_length, chip8_zero_display_length, rfl, by decide, rfl, rfl,
   C8_machine_bounds_invariant chip8_zero [0] "rom" [] chip8_zero_ram_length
     chip8_zero_display_length rfl (by decide) rfl rfl⟩

/-- C9: the input handler writes only the `state` field — the machine it
returns is its argument with at most the state replaced — and since no
keyboard case touches the 16-entry keypad array (key-up events are dropped
and no key-down case writes it) and the loader never writes it either, every
keypad entry is still false after initialisation and any number of
emulator-loop iterations. -/
theorem C9_input_writes_only_state (c : chip8_t) (evs : List SDLEvent)
    (rom : Option (List Nat)) (n : String) (sched : List (List SDLEvent)) :
    handle_input c evs = { c with state := (handle_input c evs).state } ∧
    (main_loop (init_chip8 chip8_zero rom n).2 sched).keypad =
      List.replicate 16 false := by
  obtain ⟨f1, f2, f3, f4, f5, f6, f7, f8, f9, f10⟩ := handle_input_frame evs c
  constructor
  · exact chip8_ext _ _ rfl f1 f2 f3 f4 f5 f6 f7 f8 f9 f10
  · rw [(main_loop_frame sched _).2.2.2.2.2.2.2.2.1, init_chip8_keypad]
    rfl
